import Mathlib

/-
Verification of the Daily Engagement Gate core of the ourgame Discord bot
(src/src/plugins/journaling.py, src/src/database.py).

The embedding models the persistence layer (Supabase tables `users`,
`journal_entries`, `daily_stats`) as in-memory lists, timestamps as natural
numbers counting microseconds (matching the microsecond precision of
datetime.max.time() used for the inclusive end-of-day bound), calendar dates
as natural-number day indices in the configured time zone, and the external
per-user permission overwrite on the shared channel as a function from
discord id to Option Bool (some true: explicit allow overwrite, some false:
explicit deny, none: no overwrite / inherited).

User primary keys and discord ids are merged into a single id space: the code
keeps both columns in one-to-one correspondence for every existing user, and
all core queries key on discord_id.
-/

namespace OurGame

/-- Microseconds in one day; datetime.max.time() is 23:59:59.999999, one
microsecond short of the next midnight. -/
def usPerDay : Nat := 86400000000

/-- Timestamp of the first instant of day d in the configured time zone
(database.py line 113: TIMEZONE.localize(combine(target_date, min.time()))). -/
def startOfDay (d : Nat) : Nat := d * usPerDay

/-- Timestamp of the last representable instant of day d
(database.py line 114: TIMEZONE.localize(combine(target_date, max.time()))). -/
def endOfDay (d : Nat) : Nat := d * usPerDay + (usPerDay - 1)

/-- A row of the journal_entries table (database.py create_journal_entry). -/
structure JournalEntry where
  discord_id : Nat
  discord_username : String
  message_id : Nat
  channel_id : Nat
  content : String
  word_count : Nat
  created_at : Nat
deriving Repr, DecidableEq

/-- A row of the daily_stats table. last_updated is 0 at insertion time
(the insert in get_or_create_daily_stats does not set the column). -/
structure DailyStatsRow where
  discord_id : Nat
  date : Nat
  total_words : Nat
  has_access : Bool
  last_updated : Nat
deriving Repr, DecidableEq

/-- A row of the users table. -/
structure UserRec where
  discord_id : Nat
  discord_username : String
  journal_channel_id : Option Nat
deriving Repr, DecidableEq

/-- The persisted state: the three tables used by the core. -/
structure DB where
  users : List UserRec
  entries : List JournalEntry
  daily_stats : List DailyStatsRow
deriving Repr, DecidableEq

/-- database.py get_user_by_discord_id: select from users where discord_id
matches. -/
def get_user_by_discord_id (db : DB) (id : Nat) : Option UserRec :=
  db.users.find? (fun u => u.discord_id = id)

/-- database.py get_or_create_user: upsert on conflict discord_id. On
conflict the upsert rewrites discord_username and keeps journal_channel_id;
otherwise it inserts a fresh row with a null journal_channel_id. -/
def get_or_create_user (db : DB) (id : Nat) (name : String) : DB × UserRec :=
  match get_user_by_discord_id db id with
  | some _ =>
      let f : UserRec → UserRec := fun u =>
        if u.discord_id = id then { u with discord_username := name } else u
      ({ db with users := db.users.map f },
       { discord_id := id, discord_username := name,
         journal_channel_id :=
           ((get_user_by_discord_id db id).map (fun u => u.journal_channel_id)).join })
  | none =>
      let u : UserRec := { discord_id := id, discord_username := name,
                           journal_channel_id := none }
      ({ db with users := db.users ++ [u] }, u)

/-- database.py update_user_journal_channel: update journal_channel_id on the
rows matching discord_id, additionally requiring the current value to be null
when only_if_null is set; returns whether any row matched (len(result.data) > 0). -/
def update_user_journal_channel (db : DB) (id : Nat) (ch : Option Nat)
    (only_if_null : Bool) : DB × Bool :=
  let hits := db.users.filter
    (fun u => u.discord_id = id && (!only_if_null || u.journal_channel_id = none))
  let f : UserRec → UserRec := fun u =>
    if u.discord_id = id && (!only_if_null || u.journal_channel_id = none) then
      { u with journal_channel_id := ch }
    else u
  ({ db with users := db.users.map f }, !hits.isEmpty)

/-- database.py get_all_users_with_journals: users whose journal_channel_id
is not null. -/
def get_all_users_with_journals (db : DB) : List UserRec :=
  db.users.filter (fun u => u.journal_channel_id.isSome)

/-- database.py get_journal_entries_for_date: entries of the user whose
created_at lies in the inclusive range [start_of_day, end_of_day]. -/
def get_journal_entries_for_date (db : DB) (id d : Nat) : List JournalEntry :=
  db.entries.filter (fun e =>
    e.discord_id = id && startOfDay d ≤ e.created_at && e.created_at ≤ endOfDay d)

/-- database.py create_journal_entry: look the user up, lazily create them if
absent, then insert the entry row. created_at is the insertion timestamp
assigned by the database. -/
def create_journal_entry (db : DB) (id : Nat) (name : String)
    (message_id channel_id : Nat) (content : String) (word_count : Nat)
    (created_at : Nat) : DB :=
  let db1 :=
    match get_user_by_discord_id db id with
    | some _ => db
    | none => (get_or_create_user db id name).1
  { db1 with entries := db1.entries ++
      [{ discord_id := id, discord_username := name, message_id := message_id,
         channel_id := channel_id, content := content,
         word_count := word_count, created_at := created_at }] }

/-- Lookup of the daily_stats row for (user, date). -/
def get_daily_stats (db : DB) (id d : Nat) : Option DailyStatsRow :=
  db.daily_stats.find? (fun r => r.discord_id = id && r.date = d)

/-- database.py get_or_create_daily_stats: raises (modelled as none) when the
user does not exist; otherwise returns the existing row for (user, date) or
inserts a fresh one with total_words = 0 and has_access = false. -/
def get_or_create_daily_stats (db : DB) (id d : Nat) :
    Option (DB × DailyStatsRow) :=
  match get_user_by_discord_id db id with
  | none => none
  | some _ =>
      match get_daily_stats db id d with
      | some r => some (db, r)
      | none =>
          let r : DailyStatsRow :=
            { discord_id := id, date := d, total_words := 0,
              has_access := false, last_updated := 0 }
          some ({ db with daily_stats := db.daily_stats ++ [r] }, r)

/-- The per-row effect of the update statement in database.py
update_daily_stats: rows matching (user, date) get total_words, has_access
and last_updated rewritten, other rows are untouched. -/
def statsUpd (id d total : Nat) (access : Bool) (now : Nat)
    (r : DailyStatsRow) : DailyStatsRow :=
  if r.discord_id = id && r.date = d then
    { r with total_words := total, has_access := access, last_updated := now }
  else r

/-- database.py update_daily_stats: silently returns when the user does not
exist; otherwise rewrites total_words, has_access and last_updated (set to
the wall-clock time of the call) on the rows matching (user, date). -/
def update_daily_stats (db : DB) (id d total : Nat) (access : Bool)
    (now : Nat) : DB :=
  match get_user_by_discord_id db id with
  | none => db
  | some _ =>
      { db with daily_stats := db.daily_stats.map (statsUpd id d total access now) }

/-- journaling.py update_user_daily_stats: fetch the user's entries for the
day, sum word_count, derive has_access against the configured threshold T,
ensure the daily_stats row exists and overwrite it; returns the day total.
The exception path (user not found makes get_or_create_daily_stats raise)
is caught and returns 0 leaving the database unchanged. -/
def update_user_daily_stats (db : DB) (id : Nat) (today T now : Nat) :
    DB × Nat :=
  let entries := get_journal_entries_for_date db id today
  let total := (entries.map (fun e => e.word_count)).sum
  let has_access : Bool := decide (T ≤ total)
  match get_or_create_daily_stats db id today with
  | none => (db, 0)
  | some (db1, _) => (update_daily_stats db1 id today total has_access now, total)

/-- The exact sum of word counts over the user's same-day entries. -/
def dayTotal (db : DB) (id today : Nat) : Nat :=
  ((get_journal_entries_for_date db id today).map (fun e => e.word_count)).sum

/-- The row written by a recompute: key (user, day), the day total, the
threshold comparison, and the call's wall-clock time. -/
def recomputedRow (db : DB) (id today T now : Nat) : DailyStatsRow :=
  { discord_id := id, date := today, total_words := dayTotal db id today,
    has_access := decide (T ≤ dayTotal db id today), last_updated := now }

/-- database.py get_all_journal_entries_for_date: every user's entries whose
created_at lies in the inclusive day range. -/
def get_all_journal_entries_for_date (db : DB) (d : Nat) : List JournalEntry :=
  db.entries.filter (fun e =>
    startOfDay d ≤ e.created_at && e.created_at ≤ endOfDay d)

/-- The observable outcome of one /gemini invocation. -/
inductive GeminiOutcome where
  | wrongChannel
  | userError
  | noAccess (requirement : Nat)
  | noEntries
  | ranLLM
deriving Repr, DecidableEq

/-- journaling.py handle_gemini_command: the channel gate runs first (an
ephemeral rejection naming the shared channel); then the eligibility check
via get_or_create_daily_stats (whose user-not-found error is caught by the
outer handler); only with has_access true are the day's entries fetched and,
when non-empty, the LLM called. Returns the database, whether the LLM was
called, and the outcome. -/
def handle_gemini_command (db : DB) (invoker channel sharedChannel T today : Nat) :
    DB × Bool × GeminiOutcome :=
  if channel ≠ sharedChannel then (db, false, GeminiOutcome.wrongChannel)
  else
    match get_or_create_daily_stats db invoker today with
    | none => (db, false, GeminiOutcome.userError)
    | some (db1, row) =>
      if row.has_access then
        if (get_all_journal_entries_for_date db1 today).isEmpty then
          (db1, false, GeminiOutcome.noEntries)
        else (db1, true, GeminiOutcome.ranLLM)
      else (db1, false, GeminiOutcome.noAccess T)

/-- The kind of channel a message arrived in. -/
inductive ChannelKind where
  | dm
  | guildText
  | other
deriving Repr, DecidableEq

/-- An inbound Discord message event, as the journaling plugin reads it. -/
structure Message where
  author_id : Nat
  author_name : String
  author_bot : Bool
  message_id : Nat
  channel_id : Nat
  channel_kind : ChannelKind
  channel_name : String
  content : String
deriving Repr, DecidableEq

/-- journaling.py is_journal_channel: a guild text channel whose name starts
with the journal name marker; nothing else about the channel is checked. -/
def is_journal_channel (kind : ChannelKind) (name : String) : Bool :=
  kind = ChannelKind.guildText && "journal-".data.isPrefixOf name.data

/-- Which handler journaling.py on_message dispatches a message to. -/
inductive Route where
  | ignored
  | dmRoute
  | journalRoute
deriving Repr, DecidableEq

/-- journaling.py on_message: bot authors are ignored; DMs go to the channel
provisioning handler; everything else goes to the journal handler exactly
when is_journal_channel accepts the channel. -/
def on_message_route (msg : Message) : Route :=
  if msg.author_bot then Route.ignored
  else if msg.channel_kind = ChannelKind.dm then Route.dmRoute
  else if is_journal_channel msg.channel_kind msg.channel_name then Route.journalRoute
  else Route.ignored

/-- Helper for wordCount: counts the maximal non-whitespace runs of a
character list, tracking whether a run is open. -/
def wordRuns : List Char → Bool → Nat
  | [], _ => 0
  | c :: cs, inWord =>
    if c.isWhitespace then wordRuns cs false
    else (if inWord then 0 else 1) + wordRuns cs true

/-- len(content.split()) in Python: content is split on whitespace runs with
empty pieces dropped, so the count is the number of maximal non-whitespace
runs. -/
def wordCount (s : String) : Nat := wordRuns s.data false

/-- The externally-held overwrite on the shared channel, per discord id:
some true is the explicit allow written by the grant path, some false an
explicit deny, none no overwrite (inherited). -/
def PermState : Type := Nat → Option Bool

/-- journaling.py handle_journal_message: count words; zero words is a
silent no-op; otherwise persist the entry (created_at is the insertion
time), recompute the author's daily stats, and when the total meets the
threshold grant the explicit allow on the shared channel — when the shared
channel resolves, the author resolves to a guild member, and the permission
call does not raise (grantFails; a raise is caught per-user by the inner
except blocks leaving the permission state unchanged). -/
def handle_journal_message (db : DB) (perms : PermState) (msg : Message)
    (T today now : Nat) (sharedExists : Bool) (member grantFails : Nat → Bool) :
    DB × PermState :=
  let wc := wordCount msg.content
  if wc = 0 then (db, perms)
  else
    let db1 := create_journal_entry db msg.author_id msg.author_name
      msg.message_id msg.channel_id msg.content wc now
    let res := update_user_daily_stats db1 msg.author_id today T now
    if T ≤ res.2 then
      if sharedExists && member msg.author_id && !grantFails msg.author_id then
        (res.1, fun x => if x = msg.author_id then some true else perms x)
      else (res.1, perms)
    else (res.1, perms)

/-- The revoke loop of journaling.py check_daily_reset lines 287-291: iterate
over the users with journal channels; a user not resolving to a guild member
is skipped; a raising set_permissions call propagates out of the loop (the
try wraps the whole task body), leaving the remaining users unprocessed. -/
def resetPass (member permFails : Nat → Bool) :
    List UserRec → PermState → PermState
  | [], perms => perms
  | u :: rest, perms =>
    if member u.discord_id then
      if permFails u.discord_id then perms
      else resetPass member permFails rest
        (fun x => if x = u.discord_id then none else perms x)
    else resetPass member permFails rest perms

/-- journaling.py check_daily_reset: hourly task; it acts only when the hour
in the configured time zone is 0 and the shared channel resolves, and then
removes the per-member overwrite (overwrite=None) for every user with a
journal channel. -/
def check_daily_reset (hour : Nat) (sharedExists : Bool)
    (member permFails : Nat → Bool) (db : DB) (perms : PermState) : PermState :=
  if hour = 0 then
    if sharedExists then
      resetPass member permFails (get_all_users_with_journals db) perms
    else perms
  else perms

/-- The desired per-user access of spec 4.4: today's has_access, defaulting
to false when no DailyStats row exists. Stated from the words of the spec,
for comparison with what the code's periodic task actually does. -/
def desiredAccess (db : DB) (d uid : Nat) : Bool :=
  match get_daily_stats db uid d with
  | some r => r.has_access
  | none => false

/-- The reconciliation post-state claim C3 describes, stated from the words
of the spec: for every user with a provisioned channel the explicit allow is
present exactly when today's has_access holds. -/
def reconciled (db : DB) (d : Nat) (perms : PermState) : Prop :=
  ∀ u ∈ get_all_users_with_journals db,
    (perms u.discord_id = some true ↔ desiredAccess db d u.discord_id = true)

/-
Channel provisioning race (journaling.py handle_dm lines 74-124 together
with create_journal_channel and database.py update_user_journal_channel).
The model is scoped to one user: chans is the set of currently existing
journal channels carrying this user's channel name (all channels created by
create_journal_channel carry it and grant the user read access, so any of
them can be adopted by the discord.utils.get check), bound is the stored
journal_channel_id, and each of the n concurrent handle_dm invocations
advances through one control point per awaited call, interleaved arbitrarily.
-/

/-- The control point of one in-flight handle_dm invocation; `held` is the
channel the local variable `channel` currently refers to. -/
inductive PC where
  | start
  | clear
  | chk
  | mk
  | cas (held : Nat)
  | reread (held : Nat)
  | del (held : Nat) (winner : Nat)
  | done (announced : Option Nat)
deriving Repr, DecidableEq

/-- The shared state of the provisioning race for one user: the stored
journal_channel_id (bound), the existing journal channels of this user
(chans), a fresh-id source for channel creation (next), and the control
point of each of the n concurrent invocations. -/
structure RaceState (n : Nat) where
  bound : Option Nat
  chans : Finset Nat
  next : Nat
  pcs : Fin n → PC

/-- One awaited step of some invocation i, following handle_dm:
start reads the user row — an existing binding to a live channel answers
immediately (startDone), a stale binding to a deleted channel is cleared
unconditionally (startStale/clearStep, line 92), a null binding proceeds to
create_journal_channel; chk is the discord.utils.get name lookup, adopting
any existing channel of that name (chkAdopt) or, seeing none, proceeding to
create one (chkEmpty/mkStep); cas is the conditional write (only_if_null):
it binds when the field is null (casWin) and otherwise fails (casLose);
after a failed write the user row is re-read (reread): the winner's channel
is kept when it is the invocation's own (rereadKeep), adopted after deleting
the invocation's own channel when it differs and exists (rereadAdopt and
delStep, lines 105-108), and the invocation's own channel is kept when the
re-read binding is missing or its channel does not resolve (rereadNull,
rereadMissing — the `if existing_channel and ...` guard). -/
inductive RaceStep {n : Nat} : RaceState n → RaceState n → Prop where
  | startDone (s : RaceState n) (i : Fin n) (c : Nat) :
      s.pcs i = PC.start → s.bound = some c → c ∈ s.chans →
      RaceStep s { s with pcs := Function.update s.pcs i (PC.done (some c)) }
  | startStale (s : RaceState n) (i : Fin n) (c : Nat) :
      s.pcs i = PC.start → s.bound = some c → c ∉ s.chans →
      RaceStep s { s with pcs := Function.update s.pcs i PC.clear }
  | startNull (s : RaceState n) (i : Fin n) :
      s.pcs i = PC.start → s.bound = none →
      RaceStep s { s with pcs := Function.update s.pcs i PC.chk }
  | clearStep (s : RaceState n) (i : Fin n) :
      s.pcs i = PC.clear →
      RaceStep s
        { s with bound := none, pcs := Function.update s.pcs i PC.chk }
  | chkAdopt (s : RaceState n) (i : Fin n) (c : Nat) :
      s.pcs i = PC.chk → c ∈ s.chans →
      RaceStep s { s with pcs := Function.update s.pcs i (PC.cas c) }
  | chkEmpty (s : RaceState n) (i : Fin n) :
      s.pcs i = PC.chk → s.chans = ∅ →
      RaceStep s { s with pcs := Function.update s.pcs i PC.mk }
  | mkStep (s : RaceState n) (i : Fin n) :
      s.pcs i = PC.mk →
      RaceStep s { s with chans := insert s.next s.chans, next := s.next + 1, pcs := Function.update s.pcs i (PC.cas s.next) }
  | casWin (s : RaceState n) (i : Fin n) (h : Nat) :
      s.pcs i = PC.cas h → s.bound = none →
      RaceStep s { s with bound := some h, pcs := Function.update s.pcs i (PC.done (some h)) }
  | casLose (s : RaceState n) (i : Fin n) (h b : Nat) :
      s.pcs i = PC.cas h → s.bound = some b →
      RaceStep s { s with pcs := Function.update s.pcs i (PC.reread h) }
  | rereadKeep (s : RaceState n) (i : Fin n) (h : Nat) :
      s.pcs i = PC.reread h → s.bound = some h →
      RaceStep s { s with pcs := Function.update s.pcs i (PC.done (some h)) }
  | rereadAdopt (s : RaceState n) (i : Fin n) (h b : Nat) :
      s.pcs i = PC.reread h → s.bound = some b → b ∈ s.chans → b ≠ h →
      RaceStep s { s with pcs := Function.update s.pcs i (PC.del h b) }
  | rereadMissing (s : RaceState n) (i : Fin n) (h b : Nat) :
      s.pcs i = PC.reread h → s.bound = some b → b ∉ s.chans →
      RaceStep s { s with pcs := Function.update s.pcs i (PC.done (some h)) }
  | rereadNull (s : RaceState n) (i : Fin n) (h : Nat) :
      s.pcs i = PC.reread h → s.bound = none →
      RaceStep s { s with pcs := Function.update s.pcs i (PC.done (some h)) }
  | delStep (s : RaceState n) (i : Fin n) (h b : Nat) :
      s.pcs i = PC.del h b →
      RaceStep s { s with chans := s.chans.erase h, pcs := Function.update s.pcs i (PC.done (some b)) }

/-- The fresh initial state of a provisioning race: no binding, no channel,
all n invocations about to run. -/
def raceInit (n : Nat) : RaceState n :=
  { bound := none, chans := ∅, next := 0, pcs := fun _ => PC.start }

/-- The states an interleaved execution of the n invocations can reach. -/
def RaceReachable (n : Nat) (s : RaceState n) : Prop :=
  Relation.ReflTransGen RaceStep (raceInit n) s

/-- A control point whose local `channel` variable refers to channel c,
with the invocation still running. -/
def holdsPC (p : PC) (c : Nat) : Prop :=
  p = PC.cas c ∨ p = PC.reread c ∨ ∃ b, p = PC.del c b

/-- Invocation i currently holds channel c: its local `channel` variable
refers to c and it has not finished. -/
def holds {n : Nat} (s : RaceState n) (i : Fin n) (c : Nat) : Prop :=
  holdsPC (s.pcs i) c

/-- The inductive invariant of the provisioning race from a fresh start:
any binding points at an existing channel; channel ids come from the fresh
source; the stale-clear path is never entered; held ids come from the fresh
source; an invocation past a failed conditional write sees a binding, which
for a pending delete is the winner, distinct from the deletion target; every
finished invocation announced the bound channel; before the first successful
write every held channel exists; and every existing channel that is not the
bound one is held by some still-running invocation (which will delete it or
bind it). -/
structure RaceInv {n : Nat} (s : RaceState n) : Prop where
  bound_mem : ∀ b, s.bound = some b → b ∈ s.chans
  chans_lt : ∀ c ∈ s.chans, c < s.next
  no_clear : ∀ i, s.pcs i ≠ PC.clear
  held_lt : ∀ i c, holds s i c → c < s.next
  reread_bound : ∀ i c, s.pcs i = PC.reread c → ∃ b, s.bound = some b
  del_bound : ∀ i c b, s.pcs i = PC.del c b → s.bound = some b ∧ b ≠ c
  done_bound : ∀ i f, s.pcs i = PC.done f → ∃ b, s.bound = some b ∧ f = some b
  cas_mem : s.bound = none → ∀ i c, s.pcs i = PC.cas c → c ∈ s.chans
  responsible : ∀ c ∈ s.chans, s.bound ≠ some c → ∃ i, holds s i c

/-- First state of the single-invocation example run: past the null read. -/
def wState1 : RaceState 1 :=
  { raceInit 1 with pcs := Function.update (raceInit 1).pcs 0 PC.chk }

/-- Second state: the name lookup found no channel. -/
def wState2 : RaceState 1 :=
  { wState1 with pcs := Function.update wState1.pcs 0 PC.mk }

/-- Third state: channel 0 created and held. -/
def wState3 : RaceState 1 :=
  { wState2 with chans := insert wState2.next wState2.chans, next := wState2.next + 1, pcs := Function.update wState2.pcs 0 (PC.cas wState2.next) }

/-- Final state: the conditional write bound channel 0. -/
def wState4 : RaceState 1 :=
  { wState3 with bound := some 0, pcs := Function.update wState3.pcs 0 (PC.done (some 0)) }

theorem find?_map_pres {α : Type} (p : α → Bool) (f : α → α) (l : List α)
    (hp : ∀ a, p a = true → p (f a) = true)
    (hnp : ∀ a, p a = false → f a = a) :
    (l.map f).find? p = (l.find? p).map f := by
  induction l with
  | nil => rfl
  | cons a l ih =>
    by_cases h : p a = true
    · rw [List.map_cons, List.find?_cons_of_pos _ (hp a h),
        List.find?_cons_of_pos _ h]
      rfl
    · have h' : p a = false := by simpa using h
      have hfa : ¬ p (f a) = true := by rw [hnp a h']; simp [h']
      rw [List.map_cons, List.find?_cons_of_neg _ hfa,
        List.find?_cons_of_neg _ (by simp [h']), ih]

theorem find?_append_of_none {α : Type} (p : α → Bool) (l₁ l₂ : List α)
    (h : l₁.find? p = none) : (l₁ ++ l₂).find? p = l₂.find? p := by
  induction l₁ with
  | nil => rfl
  | cons a l ih =>
    rw [List.find?_cons] at h
    cases hpa : p a with
    | true => simp [hpa] at h
    | false =>
      rw [List.cons_append, List.find?_cons_of_neg _ (by simp [hpa])]
      exact ih (by simpa [hpa] using h)

theorem statsUpd_key (id d total : Nat) (access : Bool) (now : Nat)
    (r : DailyStatsRow) (h1 : r.discord_id = id) (h2 : r.date = d) :
    statsUpd id d total access now r =
      ⟨id, d, total, access, now⟩ := by
  cases r
  simp_all [statsUpd]

theorem statsUpd_other (id d total : Nat) (access : Bool) (now : Nat)
    (r : DailyStatsRow)
    (h : ((r.discord_id = id && r.date = d : Bool)) = false) :
    statsUpd id d total access now r = r := by
  unfold statsUpd
  rw [if_neg]
  simp [h]

theorem update_daily_stats_lookup (db : DB) (id d total : Nat) (access : Bool)
    (now : Nat) (hu : (get_user_by_discord_id db id).isSome)
    (hsome : (get_daily_stats db id d).isSome) :
    get_daily_stats (update_daily_stats db id d total access now) id d =
      some ⟨id, d, total, access, now⟩ := by
  obtain ⟨u, hu'⟩ := Option.isSome_iff_exists.mp hu
  obtain ⟨r, hr⟩ := Option.isSome_iff_exists.mp hsome
  unfold update_daily_stats
  rw [hu']
  unfold get_daily_stats at hr ⊢
  rw [find?_map_pres _ _ _ ?hp ?hnp]
  case hp =>
    intro a ha
    simp only [Bool.and_eq_true, decide_eq_true_eq] at ha
    rw [statsUpd_key id d total access now a ha.1 ha.2]
    simp
  case hnp =>
    intro a ha
    exact statsUpd_other id d total access now a ha
  rw [hr]
  have hpr := List.find?_some hr
  simp only [Bool.and_eq_true, decide_eq_true_eq] at hpr
  show some (statsUpd id d total access now r) = _
  rw [statsUpd_key id d total access now r hpr.1 hpr.2]

theorem get_or_create_daily_stats_exists (db : DB) (id d : Nat)
    (hu : (get_user_by_discord_id db id).isSome) :
    ∃ db1 r, get_or_create_daily_stats db id d = some (db1, r) ∧
      db1.users = db.users ∧ db1.entries = db.entries ∧
      (get_daily_stats db1 id d).isSome ∧
      ((get_daily_stats db id d).isSome → db1 = db) := by
  obtain ⟨u, hu'⟩ := Option.isSome_iff_exists.mp hu
  unfold get_or_create_daily_stats
  rw [hu']
  cases hfind : get_daily_stats db id d with
  | some r =>
    exact ⟨db, r, rfl, rfl, rfl, by rw [hfind]; rfl, fun _ => rfl⟩
  | none =>
    refine ⟨_, _, rfl, rfl, rfl, ?_, fun h => absurd h (by simp)⟩
    unfold get_daily_stats at hfind ⊢
    rw [find?_append_of_none _ _ _ hfind]
    simp

theorem update_user_daily_stats_spec (db : DB) (id today T now : Nat)
    (hu : (get_user_by_discord_id db id).isSome) :
    get_daily_stats (update_user_daily_stats db id today T now).1 id today =
      some (recomputedRow db id today T now) ∧
    (update_user_daily_stats db id today T now).2 = dayTotal db id today := by
  obtain ⟨db1, r, hsome, husers, hentr, hstats, _⟩ :=
    get_or_create_daily_stats_exists db id today hu
  have hu1 : (get_user_by_discord_id db1 id).isSome := by
    unfold get_user_by_discord_id at hu ⊢; rw [husers]; exact hu
  unfold update_user_daily_stats
  rw [hsome]
  exact ⟨update_daily_stats_lookup db1 id today _ _ now hu1 hstats, rfl⟩

/-- Claim C1: for every existing user, every date and any same-day entry set,
the daily-stats recompute writes total_words equal to the exact sum of the
word_count values of the user's entries whose created_at lies in the
inclusive range from startOfDay to endOfDay of that date in the configured
time zone, and writes has_access true exactly when the configured daily word
threshold T is met. -/
theorem daily_stats_recompute_correct (db : DB) (id today T now : Nat)
    (hu : (get_user_by_discord_id db id).isSome) :
    ∃ row, get_daily_stats (update_user_daily_stats db id today T now).1 id today =
        some row ∧
      row.total_words = ((db.entries.filter (fun e =>
          e.discord_id = id && startOfDay today ≤ e.created_at &&
            e.created_at ≤ endOfDay today)).map (fun e => e.word_count)).sum ∧
      (row.has_access = true ↔ T ≤ row.total_words) := by
  obtain ⟨hrow, -⟩ := update_user_daily_stats_spec db id today T now hu
  refine ⟨recomputedRow db id today T now, hrow, rfl, ?_⟩
  simp [recomputedRow]

/-- Witness for C1 at a concrete database: one user with two same-day
entries of 3 and 4 words against a threshold of 5. -/
theorem daily_stats_recompute_correct_witness :
    (get_user_by_discord_id
        ⟨[⟨1, "alice", none⟩],
         [⟨1, "alice", 100, 200, "a b c", 3, 50⟩,
          ⟨1, "alice", 101, 200, "d e f g", 4, 60⟩], []⟩ 1).isSome ∧
    ∃ row, get_daily_stats (update_user_daily_stats
        ⟨[⟨1, "alice", none⟩],
         [⟨1, "alice", 100, 200, "a b c", 3, 50⟩,
          ⟨1, "alice", 101, 200, "d e f g", 4, 60⟩], []⟩ 1 0 5 7).1 1 0 =
        some row ∧
      row.total_words = (((⟨[⟨1, "alice", none⟩],
         [⟨1, "alice", 100, 200, "a b c", 3, 50⟩,
          ⟨1, "alice", 101, 200, "d e f g", 4, 60⟩], []⟩ : DB).entries.filter
            (fun e => e.discord_id = 1 && startOfDay 0 ≤ e.created_at &&
              e.created_at ≤ endOfDay 0)).map (fun e => e.word_count)).sum ∧
      (row.has_access = true ↔ 5 ≤ row.total_words) :=
  ⟨by decide, daily_stats_recompute_correct _ 1 0 5 7 (by decide)⟩

theorem get_or_create_daily_stats_parts (db : DB) (id d : Nat) (db1 : DB)
    (r : DailyStatsRow) (h : get_or_create_daily_stats db id d = some (db1, r)) :
    db1.users = db.users ∧ db1.entries = db.entries ∧
    ((get_daily_stats db id d).isSome → db1 = db) := by
  unfold get_or_create_daily_stats at h
  cases hu : get_user_by_discord_id db id with
  | none => rw [hu] at h; cases h
  | some u =>
    rw [hu] at h
    cases hf : get_daily_stats db id d with
    | some r0 =>
      rw [hf] at h
      cases h
      exact ⟨rfl, rfl, fun _ => rfl⟩
    | none =>
      rw [hf] at h
      cases h
      exact ⟨rfl, rfl, fun hs => absurd hs (by simp)⟩

theorem update_daily_stats_frame (db : DB) (id d total : Nat) (access : Bool)
    (now : Nat) :
    (update_daily_stats db id d total access now).entries = db.entries ∧
    (update_daily_stats db id d total access now).users = db.users := by
  unfold update_daily_stats
  cases get_user_by_discord_id db id <;> exact ⟨rfl, rfl⟩

theorem update_user_daily_stats_frame (db : DB) (id today T now : Nat) :
    (update_user_daily_stats db id today T now).1.entries = db.entries ∧
    (update_user_daily_stats db id today T now).1.users = db.users := by
  unfold update_user_daily_stats
  cases hg : get_or_create_daily_stats db id today with
  | none => exact ⟨rfl, rfl⟩
  | some pair =>
    obtain ⟨db1, r⟩ := pair
    obtain ⟨hu1, he1, -⟩ := get_or_create_daily_stats_parts db id today db1 r hg
    refine ⟨?_, ?_⟩
    · show (update_daily_stats db1 id today _ _ now).entries = db.entries
      rw [(update_daily_stats_frame db1 id today _ _ now).1, he1]
    · show (update_daily_stats db1 id today _ _ now).users = db.users
      rw [(update_daily_stats_frame db1 id today _ _ now).2, hu1]

theorem dayTotal_congr (db db1 : DB) (id today : Nat)
    (h : db1.entries = db.entries) :
    dayTotal db1 id today = dayTotal db id today := by
  unfold dayTotal get_journal_entries_for_date
  rw [h]

/-- Counterexample to claim C6 as stated: two recomputes with no new entries
in between, at wall-clock times 1 and 2, yield DailyStats rows that differ
(in last_updated), so the second call does not reproduce the first call's
row in every field. -/
theorem recompute_second_call_differs :
    get_daily_stats (update_user_daily_stats (update_user_daily_stats
        ⟨[⟨1, "a", none⟩], [⟨1, "a", 100, 200, "x y z", 3, 50⟩], []⟩
        1 0 5 1).1 1 0 5 2).1 1 0 ≠
      get_daily_stats (update_user_daily_stats
        ⟨[⟨1, "a", none⟩], [⟨1, "a", 100, 200, "x y z", 3, 50⟩], []⟩
        1 0 5 1).1 1 0 := by
  decide

/-- Claim C6 (amended): recompute is idempotent except for the last_updated
stamp — with no new entries in between, the second call writes the same
total_words and has_access and returns the same day total; last_updated is
rewritten to the wall-clock time of each call, so the rows are fully
identical only when the two calls carry the same timestamp. -/
theorem recompute_idempotent_amended (db : DB) (id today T n1 n2 : Nat)
    (hu : (get_user_by_discord_id db id).isSome) :
    ∃ r1 r2,
      get_daily_stats (update_user_daily_stats db id today T n1).1 id today =
        some r1 ∧
      get_daily_stats (update_user_daily_stats
        (update_user_daily_stats db id today T n1).1 id today T n2).1 id today =
        some r2 ∧
      r2.total_words = r1.total_words ∧ r2.has_access = r1.has_access ∧
      r1.last_updated = n1 ∧ r2.last_updated = n2 ∧
      (update_user_daily_stats (update_user_daily_stats db id today T n1).1
        id today T n2).2 = (update_user_daily_stats db id today T n1).2 := by
  obtain ⟨h1, t1⟩ := update_user_daily_stats_spec db id today T n1 hu
  have hu1 : (get_user_by_discord_id
      (update_user_daily_stats db id today T n1).1 id).isSome := by
    unfold get_user_by_discord_id
    rw [(update_user_daily_stats_frame db id today T n1).2]
    exact hu
  obtain ⟨h2, t2⟩ := update_user_daily_stats_spec _ id today T n2 hu1
  have hD : dayTotal (update_user_daily_stats db id today T n1).1 id today =
      dayTotal db id today :=
    dayTotal_congr _ _ id today (update_user_daily_stats_frame db id today T n1).1
  refine ⟨_, _, h1, h2, ?_, ?_, rfl, rfl, ?_⟩
  · simp [recomputedRow, hD]
  · simp [recomputedRow, hD]
  · rw [t1, t2, hD]

/-- Witness for the amended C6 at a concrete database: user 1, one 3-word
entry, threshold 5, recomputed at times 1 then 2. -/
theorem recompute_idempotent_amended_witness :
    (get_user_by_discord_id
      ⟨[⟨1, "a", none⟩], [⟨1, "a", 100, 200, "x y z", 3, 50⟩], []⟩ 1).isSome ∧
    ∃ r1 r2,
      get_daily_stats (update_user_daily_stats
        ⟨[⟨1, "a", none⟩], [⟨1, "a", 100, 200, "x y z", 3, 50⟩], []⟩
        1 0 5 1).1 1 0 = some r1 ∧
      get_daily_stats (update_user_daily_stats (update_user_daily_stats
        ⟨[⟨1, "a", none⟩], [⟨1, "a", 100, 200, "x y z", 3, 50⟩], []⟩
        1 0 5 1).1 1 0 5 2).1 1 0 = some r2 ∧
      r2.total_words = r1.total_words ∧ r2.has_access = r1.has_access ∧
      r1.last_updated = 1 ∧ r2.last_updated = 2 ∧
      (update_user_daily_stats (update_user_daily_stats
        ⟨[⟨1, "a", none⟩], [⟨1, "a", 100, 200, "x y z", 3, 50⟩], []⟩
        1 0 5 1).1 1 0 5 2).2 = (update_user_daily_stats
        ⟨[⟨1, "a", none⟩], [⟨1, "a", 100, 200, "x y z", 3, 50⟩], []⟩
        1 0 5 1).2 :=
  ⟨by decide, recompute_idempotent_amended _ 1 0 5 1 2 (by decide)⟩

/-- Claim C10: the command invoked in any channel other than the configured
shared channel is rejected with the ephemeral wrong-channel message before
the eligibility lookup — for every database, invoker and access state, the
database is unchanged and no LLM call is made. -/
theorem gemini_wrong_channel_rejects (db : DB)
    (invoker channel sharedChannel T today : Nat)
    (h : channel ≠ sharedChannel) :
    handle_gemini_command db invoker channel sharedChannel T today =
      (db, false, GeminiOutcome.wrongChannel) := by
  unfold handle_gemini_command
  rw [if_pos h]

/-- Witness for C10: invoking in channel 7 while the shared channel is 9. -/
theorem gemini_wrong_channel_rejects_witness :
    (7 : Nat) ≠ 9 ∧
    handle_gemini_command ⟨[⟨1, "a", none⟩], [], []⟩ 1 7 9 500 0 =
      (⟨[⟨1, "a", none⟩], [], []⟩, false, GeminiOutcome.wrongChannel) :=
  ⟨by decide, gemini_wrong_channel_rejects _ 1 7 9 500 0 (by decide)⟩

/-- Counterexample to claim C5 as stated: user 1 exists but has no DailyStats
row for today, so current-day has_access is false; the gate rejects with the
requirement message and makes no LLM call, but the persisted state changes —
the eligibility lookup lazily INSERTS the zero DailyStats row. -/
theorem gemini_gate_side_effect :
    (handle_gemini_command ⟨[⟨1, "a", none⟩], [], []⟩ 1 9 9 500 0).2.1 = false ∧
    (handle_gemini_command ⟨[⟨1, "a", none⟩], [], []⟩ 1 9 9 500 0).2.2 =
      GeminiOutcome.noAccess 500 ∧
    (handle_gemini_command ⟨[⟨1, "a", none⟩], [], []⟩ 1 9 9 500 0).1 ≠
      ⟨[⟨1, "a", none⟩], [], []⟩ := by
  decide

/-- Claim C5 (amended): invoked in the shared channel by an existing user
whose current-day has_access is false, the gate rejects with the message
naming the daily word requirement and makes no LLM call; users and entries
are untouched, and the only possible persisted-state change is the lazy
creation of the zero DailyStats row — when the row already exists the
database is unchanged. -/
theorem gemini_gate_rejects_amended (db : DB)
    (invoker sharedChannel T today : Nat) (db1 : DB) (row : DailyStatsRow)
    (hg : get_or_create_daily_stats db invoker today = some (db1, row))
    (hacc : row.has_access = false) :
    handle_gemini_command db invoker sharedChannel sharedChannel T today =
      (db1, false, GeminiOutcome.noAccess T) ∧
    db1.users = db.users ∧ db1.entries = db.entries ∧
    ((get_daily_stats db invoker today).isSome → db1 = db) := by
  obtain ⟨hus, hen, hid⟩ := get_or_create_daily_stats_parts db invoker today db1 row hg
  refine ⟨?_, hus, hen, hid⟩
  unfold handle_gemini_command
  rw [if_neg (by simp), hg]
  simp [hacc]

/-- Witness for the amended C5: user 1 with an existing zero row for today;
the gate rejects and the database is unchanged. -/
theorem gemini_gate_rejects_amended_witness :
    get_or_create_daily_stats ⟨[⟨1, "a", none⟩], [], [⟨1, 0, 3, false, 0⟩]⟩ 1 0 =
      some (⟨[⟨1, "a", none⟩], [], [⟨1, 0, 3, false, 0⟩]⟩, ⟨1, 0, 3, false, 0⟩) ∧
    (⟨1, 0, 3, false, 0⟩ : DailyStatsRow).has_access = false ∧
    (handle_gemini_command ⟨[⟨1, "a", none⟩], [], [⟨1, 0, 3, false, 0⟩]⟩ 1 9 9 500 0 =
      (⟨[⟨1, "a", none⟩], [], [⟨1, 0, 3, false, 0⟩]⟩, false, GeminiOutcome.noAccess 500) ∧
    (⟨[⟨1, "a", none⟩], [], [⟨1, 0, 3, false, 0⟩]⟩ : DB).users =
      (⟨[⟨1, "a", none⟩], [], [⟨1, 0, 3, false, 0⟩]⟩ : DB).users ∧
    (⟨[⟨1, "a", none⟩], [], [⟨1, 0, 3, false, 0⟩]⟩ : DB).entries =
      (⟨[⟨1, "a", none⟩], [], [⟨1, 0, 3, false, 0⟩]⟩ : DB).entries ∧
    ((get_daily_stats ⟨[⟨1, "a", none⟩], [], [⟨1, 0, 3, false, 0⟩]⟩ 1 0).isSome →
      (⟨[⟨1, "a", none⟩], [], [⟨1, 0, 3, false, 0⟩]⟩ : DB) =
        ⟨[⟨1, "a", none⟩], [], [⟨1, 0, 3, false, 0⟩]⟩)) :=
  ⟨by decide, by decide,
    gemini_gate_rejects_amended ⟨[⟨1, "a", none⟩], [], [⟨1, 0, 3, false, 0⟩]⟩
      1 9 500 0 ⟨[⟨1, "a", none⟩], [], [⟨1, 0, 3, false, 0⟩]⟩
      ⟨1, 0, 3, false, 0⟩ (by decide) (by decide)⟩

theorem get_or_create_user_frame (db : DB) (id : Nat) (name : String) :
    (get_or_create_user db id name).1.entries = db.entries ∧
    (get_or_create_user db id name).1.daily_stats = db.daily_stats := by
  unfold get_or_create_user
  cases get_user_by_discord_id db id <;> exact ⟨rfl, rfl⟩

theorem create_journal_entry_entries (db : DB) (id : Nat) (name : String)
    (mid cid : Nat) (content : String) (wc t : Nat) :
    (create_journal_entry db id name mid cid content wc t).entries =
      db.entries ++ [⟨id, name, mid, cid, content, wc, t⟩] := by
  unfold create_journal_entry
  cases hu : get_user_by_discord_id db id with
  | some u => rfl
  | none =>
    show (get_or_create_user db id name).1.entries ++ _ = _
    rw [(get_or_create_user_frame db id name).1]

theorem create_journal_entry_user (db : DB) (id : Nat) (name : String)
    (mid cid : Nat) (content : String) (wc t : Nat) :
    (get_user_by_discord_id
      (create_journal_entry db id name mid cid content wc t) id).isSome := by
  unfold create_journal_entry
  cases hu : get_user_by_discord_id db id with
  | some u =>
    show (get_user_by_discord_id db id).isSome
    rw [hu]
    rfl
  | none =>
    show ((get_or_create_user db id name).1.users.find?
      (fun u : UserRec => u.discord_id = id)).isSome
    unfold get_or_create_user
    rw [hu]
    unfold get_user_by_discord_id at hu
    show ((db.users ++ [(⟨id, name, none⟩ : UserRec)]).find?
      (fun u : UserRec => u.discord_id = id)).isSome
    rw [find?_append_of_none _ _ _ hu]
    simp

theorem handle_journal_message_db_eq (db : DB) (perms : PermState)
    (msg : Message) (T today now : Nat) (sharedExists : Bool)
    (member grantFails : Nat → Bool) (h : wordCount msg.content ≠ 0) :
    (handle_journal_message db perms msg T today now sharedExists member grantFails).1 =
      (update_user_daily_stats (create_journal_entry db msg.author_id
        msg.author_name msg.message_id msg.channel_id msg.content
        (wordCount msg.content) now) msg.author_id today T now).1 := by
  simp only [handle_journal_message]
  rw [if_neg h]
  split
  · split <;> rfl
  · rfl

/-- Claim C7: a message whose content splits into zero words is a silent
no-op — no JournalEntry is created and no DailyStats row is created or
changed (the whole state, permission overwrites included, is untouched);
consequently the handler preserves the invariant that every persisted
JournalEntry has word_count at least 1. -/
theorem zero_word_message_noop (db : DB) (perms : PermState) (msg : Message)
    (T today now : Nat) (sharedExists : Bool) (member grantFails : Nat → Bool) :
    (wordCount msg.content = 0 →
      handle_journal_message db perms msg T today now sharedExists member
        grantFails = (db, perms)) ∧
    ((∀ e ∈ db.entries, 1 ≤ e.word_count) →
      ∀ e ∈ (handle_journal_message db perms msg T today now sharedExists
        member grantFails).1.entries, 1 ≤ e.word_count) := by
  constructor
  · intro h0
    simp only [handle_journal_message]
    rw [if_pos h0]
  · intro hinv e he
    by_cases h0 : wordCount msg.content = 0
    · have heq : handle_journal_message db perms msg T today now sharedExists
          member grantFails = (db, perms) := by
        simp only [handle_journal_message]
        rw [if_pos h0]
      rw [heq] at he
      exact hinv e he
    · rw [handle_journal_message_db_eq db perms msg T today now sharedExists
        member grantFails h0] at he
      rw [(update_user_daily_stats_frame _ _ _ _ _).1,
        create_journal_entry_entries] at he
      rcases List.mem_append.mp he with h | h
      · exact hinv e h
      · have : e = ⟨msg.author_id, msg.author_name, msg.message_id,
          msg.channel_id, msg.content, wordCount msg.content, now⟩ := by
          simpa using h
        rw [this]
        show 1 ≤ wordCount msg.content
        omega

/-- Witness for C7 at an all-whitespace message in a populated database:
the inner hypotheses (zero words; the stored-entries invariant) are
discharged at this concrete input. -/
theorem zero_word_message_noop_witness :
    handle_journal_message ⟨[⟨1, "a", none⟩], [⟨1, "a", 5, 6, "x", 1, 7⟩], []⟩
        (fun _ => none)
        ⟨1, "a", false, 8, 6, ChannelKind.guildText, "journal-a", "  "⟩
        500 0 9 true (fun _ => true) (fun _ => false) =
      (⟨[⟨1, "a", none⟩], [⟨1, "a", 5, 6, "x", 1, 7⟩], []⟩, fun _ => none) ∧
    (∀ e ∈ (handle_journal_message
        ⟨[⟨1, "a", none⟩], [⟨1, "a", 5, 6, "x", 1, 7⟩], []⟩ (fun _ => none)
        ⟨1, "a", false, 8, 6, ChannelKind.guildText, "journal-a", "  "⟩
        500 0 9 true (fun _ => true) (fun _ => false)).1.entries,
        1 ≤ e.word_count) :=
  ⟨(zero_word_message_noop ⟨[⟨1, "a", none⟩], [⟨1, "a", 5, 6, "x", 1, 7⟩], []⟩
      (fun _ => none)
      ⟨1, "a", false, 8, 6, ChannelKind.guildText, "journal-a", "  "⟩
      500 0 9 true (fun _ => true) (fun _ => false)).1 (by decide),
   (zero_word_message_noop ⟨[⟨1, "a", none⟩], [⟨1, "a", 5, 6, "x", 1, 7⟩], []⟩
      (fun _ => none)
      ⟨1, "a", false, 8, 6, ChannelKind.guildText, "journal-a", "  "⟩
      500 0 9 true (fun _ => true) (fun _ => false)).2 (by decide)⟩

theorem dayTotal_append_entry (db : DB) (id today : Nat) (e : JournalEntry)
    (db1 : DB) (h : db1.entries = db.entries ++ [e])
    (hid : e.discord_id = id) (hlo : startOfDay today ≤ e.created_at)
    (hhi : e.created_at ≤ endOfDay today) :
    dayTotal db1 id today = dayTotal db id today + e.word_count := by
  unfold dayTotal get_journal_entries_for_date
  rw [h, List.filter_append, List.map_append, List.sum_append]
  congr 1
  simp [hid, hlo, hhi]

/-- Claim C9: journal-channel classification is purely by the name marker —
a non-bot message in a guild text channel whose name starts with journal- is
routed to the journal handler, which records the entry under the message's
AUTHOR and recomputes the author's DailyStats, with no check that the
channel is the one bound as the author's own journal_channel_id: even when
it is some other user's journal channel, the words count toward the
author's own daily total. -/
theorem journal_prefix_attribution (db : DB) (perms : PermState)
    (msg : Message) (T today now : Nat) (sharedExists : Bool)
    (member grantFails : Nat → Bool)
    (hbot : msg.author_bot = false)
    (hkind : msg.channel_kind = ChannelKind.guildText)
    (hname : "journal-".data.isPrefixOf msg.channel_name.data = true)
    (hwc : 1 ≤ wordCount msg.content)
    (hnotown : ∀ u ∈ db.users, u.discord_id = msg.author_id →
      u.journal_channel_id ≠ some msg.channel_id)
    (hlo : startOfDay today ≤ now) (hhi : now ≤ endOfDay today) :
    on_message_route msg = Route.journalRoute ∧
    (handle_journal_message db perms msg T today now sharedExists member
      grantFails).1.entries =
      db.entries ++ [⟨msg.author_id, msg.author_name, msg.message_id,
        msg.channel_id, msg.content, wordCount msg.content, now⟩] ∧
    ∃ row, get_daily_stats (handle_journal_message db perms msg T today now
        sharedExists member grantFails).1 msg.author_id today = some row ∧
      row.total_words = dayTotal db msg.author_id today + wordCount msg.content := by
  have h0 : wordCount msg.content ≠ 0 := by omega
  have hdbeq := handle_journal_message_db_eq db perms msg T today now
    sharedExists member grantFails h0
  have hentries := create_journal_entry_entries db msg.author_id
    msg.author_name msg.message_id msg.channel_id msg.content
    (wordCount msg.content) now
  refine ⟨?_, ?_, ?_⟩
  · unfold on_message_route is_journal_channel
    rw [hbot, hkind]
    simp [hname]
  · rw [hdbeq, (update_user_daily_stats_frame _ _ _ _ _).1, hentries]
  · have huser := create_journal_entry_user db msg.author_id msg.author_name
      msg.message_id msg.channel_id msg.content (wordCount msg.content) now
    obtain ⟨hrow, -⟩ := update_user_daily_stats_spec _ msg.author_id today T
      now huser
    rw [hdbeq]
    refine ⟨_, hrow, ?_⟩
    show dayTotal _ msg.author_id today = _
    exact dayTotal_append_entry db msg.author_id today _ _ hentries rfl hlo hhi

/-- Witness for C9: author 2 writes 3 words in channel 300 named
journal-alice while their own bound journal channel is 400. -/
theorem journal_prefix_attribution_witness :
    ("journal-".data.isPrefixOf "journal-alice".data = true) ∧
    1 ≤ wordCount "w1 w2 w3" ∧
    (on_message_route ⟨2, "bob", false, 100, 300, ChannelKind.guildText,
        "journal-alice", "w1 w2 w3"⟩ = Route.journalRoute ∧
      (handle_journal_message ⟨[⟨2, "bob", some 400⟩], [], []⟩ (fun _ => none)
        ⟨2, "bob", false, 100, 300, ChannelKind.guildText, "journal-alice",
          "w1 w2 w3"⟩ 500 0 10 true (fun _ => true) (fun _ => false)).1.entries =
        (⟨[⟨2, "bob", some 400⟩], [], []⟩ : DB).entries ++
          [⟨2, "bob", 100, 300, "w1 w2 w3", wordCount "w1 w2 w3", 10⟩] ∧
      ∃ row, get_daily_stats (handle_journal_message
          ⟨[⟨2, "bob", some 400⟩], [], []⟩ (fun _ => none)
          ⟨2, "bob", false, 100, 300, ChannelKind.guildText, "journal-alice",
            "w1 w2 w3"⟩ 500 0 10 true (fun _ => true) (fun _ => false)).1
          2 0 = some row ∧
        row.total_words = dayTotal ⟨[⟨2, "bob", some 400⟩], [], []⟩ 2 0 +
          wordCount "w1 w2 w3") :=
  ⟨by decide, by decide,
    journal_prefix_attribution ⟨[⟨2, "bob", some 400⟩], [], []⟩ (fun _ => none)
      ⟨2, "bob", false, 100, 300, ChannelKind.guildText, "journal-alice",
        "w1 w2 w3"⟩ 500 0 10 true (fun _ => true) (fun _ => false) rfl rfl
      (by decide) (by decide) (by decide) (by decide) (by decide)⟩

theorem resetPass_none_stable (member permFails : Nat → Bool) :
    ∀ (l : List UserRec) (perms : PermState) (x : Nat), perms x = none →
      resetPass member permFails l perms x = none
  | [], _, _, h => h
  | a :: rest, perms, x, h => by
    unfold resetPass
    by_cases hm : member a.discord_id = true
    · rw [if_pos hm]
      by_cases hfl : permFails a.discord_id = true
      · rw [if_pos hfl]; exact h
      · rw [if_neg hfl]
        apply resetPass_none_stable member permFails rest
        by_cases hx : x = a.discord_id
        · simp [hx]
        · simp [hx, h]
    · rw [if_neg hm]
      exact resetPass_none_stable member permFails rest perms x h

theorem resetPass_unlisted (member permFails : Nat → Bool) :
    ∀ (l : List UserRec) (perms : PermState) (x : Nat),
      (∀ u ∈ l, u.discord_id ≠ x) →
      resetPass member permFails l perms x = perms x
  | [], _, _, _ => rfl
  | a :: rest, perms, x, h => by
    have ha : a.discord_id ≠ x := h a (by simp)
    have hrest : ∀ u ∈ rest, u.discord_id ≠ x := fun u hu => h u (by simp [hu])
    unfold resetPass
    by_cases hm : member a.discord_id = true
    · rw [if_pos hm]
      by_cases hfl : permFails a.discord_id = true
      · rw [if_pos hfl]
      · rw [if_neg hfl,
          resetPass_unlisted member permFails rest _ x hrest,
          if_neg (fun hx => ha (Eq.symm hx))]
    · rw [if_neg hm]
      exact resetPass_unlisted member permFails rest perms x hrest

theorem resetPass_clears (member permFails : Nat → Bool) :
    ∀ (l : List UserRec) (perms : PermState),
      (∀ u ∈ l, member u.discord_id = true) →
      (∀ u ∈ l, permFails u.discord_id = false) →
      ∀ u ∈ l, resetPass member permFails l perms u.discord_id = none
  | [], _, _, _ => by intro u hu; cases hu
  | a :: rest, perms, hmem, hfail => by
    intro u hu
    have hma : member a.discord_id = true := hmem a (by simp)
    have hfa : permFails a.discord_id = false := hfail a (by simp)
    unfold resetPass
    rw [if_pos hma, if_neg (by simp [hfa])]
    rcases List.mem_cons.mp hu with h | h
    · subst h
      exact resetPass_none_stable member permFails rest _ _ (by simp)
    · exact resetPass_clears member permFails rest _
        (fun v hv => hmem v (by simp [hv]))
        (fun v hv => hfail v (by simp [hv])) u h

/-- Claim C4: when the hourly task fires during hour 0 of the new day with
the shared channel resolving, and every user with a provisioned journal
channel resolves to a guild member with the permission call succeeding,
then after the pass no such user retains any overwrite (in particular no
explicit allow) on the shared channel — for every prior permission state,
hence regardless of the previous day's has_access. -/
theorem daily_reset_revokes_all (db : DB) (perms : PermState)
    (member permFails : Nat → Bool)
    (hmem : ∀ u ∈ get_all_users_with_journals db, member u.discord_id = true)
    (hfail : ∀ u ∈ get_all_users_with_journals db,
      permFails u.discord_id = false) :
    ∀ u ∈ get_all_users_with_journals db,
      check_daily_reset 0 true member permFails db perms u.discord_id = none := by
  intro u hu
  unfold check_daily_reset
  rw [if_pos rfl, if_pos rfl]
  exact resetPass_clears member permFails _ perms hmem hfail u hu

/-- Witness for C4: two provisioned users, user 1 holding an explicit allow
from yesterday (has_access true in the snapshot), user 2 without. -/
theorem daily_reset_revokes_all_witness :
    (∀ u ∈ get_all_users_with_journals
        ⟨[⟨1, "a", some 11⟩, ⟨2, "b", some 12⟩], [], [⟨1, 0, 600, true, 3⟩]⟩,
      (fun _ : Nat => true) u.discord_id = true) ∧
    (∀ u ∈ get_all_users_with_journals
        ⟨[⟨1, "a", some 11⟩, ⟨2, "b", some 12⟩], [], [⟨1, 0, 600, true, 3⟩]⟩,
      (fun _ : Nat => false) u.discord_id = false) ∧
    (∀ u ∈ get_all_users_with_journals
        ⟨[⟨1, "a", some 11⟩, ⟨2, "b", some 12⟩], [], [⟨1, 0, 600, true, 3⟩]⟩,
      check_daily_reset 0 true (fun _ => true) (fun _ => false)
        ⟨[⟨1, "a", some 11⟩, ⟨2, "b", some 12⟩], [], [⟨1, 0, 600, true, 3⟩]⟩
        (fun x => if x = 1 then some true else none) u.discord_id = none) :=
  ⟨by decide, by decide,
    daily_reset_revokes_all
      ⟨[⟨1, "a", some 11⟩, ⟨2, "b", some 12⟩], [], [⟨1, 0, 600, true, 3⟩]⟩
      (fun x => if x = 1 then some true else none)
      (fun _ => true) (fun _ => false) (by decide) (by decide)⟩

/-- Counterexample to claim C8 as stated: with users 1 and 2 both members
and user 2 holding an explicit allow, whether user 2 gets processed by the
reset pass depends on whether user 1's permission update failed: it is
skipped (allow retained) when user 1 fails, processed (allow removed) when
user 1 succeeds. -/
theorem daily_reset_abort_counterexample :
    check_daily_reset 0 true (fun _ => true) (fun x => x == 1)
      ⟨[⟨1, "a", some 11⟩, ⟨2, "b", some 12⟩], [], []⟩
      (fun x => if x = 2 then some true else none) 2 = some true ∧
    check_daily_reset 0 true (fun _ => true) (fun _ => false)
      ⟨[⟨1, "a", some 11⟩, ⟨2, "b", some 12⟩], [], []⟩
      (fun x => if x = 2 then some true else none) 2 = none := by
  decide

/-- Claim C8 (amended): the try/except wraps the whole loop body of the
daily reset task, so the first failing permission update ends the pass: when
every member in the prefix succeeds and a member u fails, the pass computes
exactly what the pass over the prefix alone computes — the users after u are
left untouched. The exception is caught at the task boundary, so the task
itself survives to its next hourly iteration. -/
theorem daily_reset_abort_amended (member permFails : Nat → Bool) :
    ∀ (l1 l2 : List UserRec) (u : UserRec) (perms : PermState),
      (∀ v ∈ l1, member v.discord_id = true → permFails v.discord_id = false) →
      member u.discord_id = true → permFails u.discord_id = true →
      resetPass member permFails (l1 ++ u :: l2) perms =
        resetPass member permFails l1 perms
  | [], l2, u, perms, _, hm, hf => by
    show resetPass member permFails (u :: l2) perms = perms
    unfold resetPass
    rw [if_pos hm, if_pos hf]
  | a :: l1, l2, u, perms, h1, hm, hf => by
    have h1rest : ∀ v ∈ l1, member v.discord_id = true →
        permFails v.discord_id = false :=
      fun v hv => h1 v (by simp [hv])
    show resetPass member permFails (a :: (l1 ++ u :: l2)) perms = _
    unfold resetPass
    by_cases hma : member a.discord_id = true
    · by_cases hfa : permFails a.discord_id = true
      · rw [if_pos hma, if_pos hfa, if_pos hma, if_pos hfa]
      · rw [if_pos hma, if_neg hfa, if_pos hma, if_neg hfa]
        exact daily_reset_abort_amended member permFails l1 l2 u _ h1rest hm hf
    · rw [if_neg hma, if_neg hma]
      exact daily_reset_abort_amended member permFails l1 l2 u perms h1rest hm hf

/-- Witness for the amended C8: user 1 processed, user 2 fails, user 3 after
the failure — the pass equals the pass over user 1 alone. -/
theorem daily_reset_abort_amended_witness :
    (∀ v ∈ [(⟨1, "a", some 11⟩ : UserRec)],
      (fun _ : Nat => true) v.discord_id = true →
        (fun x : Nat => x == 2) v.discord_id = false) ∧
    (fun _ : Nat => true) (⟨2, "b", some 12⟩ : UserRec).discord_id = true ∧
    (fun x : Nat => x == 2) (⟨2, "b", some 12⟩ : UserRec).discord_id = true ∧
    resetPass (fun _ => true) (fun x => x == 2)
      ([⟨1, "a", some 11⟩] ++ ⟨2, "b", some 12⟩ :: [⟨3, "c", some 13⟩])
      (fun _ => some true) =
      resetPass (fun _ => true) (fun x => x == 2) [⟨1, "a", some 11⟩]
        (fun _ => some true) :=
  ⟨by decide, by decide, by decide,
    daily_reset_abort_amended (fun _ => true) (fun x => x == 2)
      [⟨1, "a", some 11⟩] [⟨3, "c", some 13⟩] ⟨2, "b", some 12⟩
      (fun _ => some true) (by decide) (by decide) (by decide)⟩

/-- Counterexample to claim C3 as stated: user 1 has a provisioned channel
and a DailyStats snapshot with has_access true, and no prior allow; one pass
of the code's only periodic task (check_daily_reset at hour 0, member
resolving, no failures) leaves the permission state NOT matching has_access
— the code never grants during a periodic pass. -/
theorem reconciliation_pass_counterexample :
    ¬ reconciled ⟨[⟨1, "a", some 50⟩], [], [⟨1, 0, 600, true, 5⟩]⟩ 0
      (check_daily_reset 0 true (fun _ => true) (fun _ => false)
        ⟨[⟨1, "a", some 50⟩], [], [⟨1, 0, 600, true, 5⟩]⟩ (fun _ => none)) := by
  unfold reconciled
  decide

/-- Claim C3 (amended): the code has no periodic pass that drives permission
state to match has_access; its only periodic task is the daily reset. At
hour 0 (shared channel and members resolving, permission calls succeeding)
one pass removes every processed user's overwrite regardless of has_access,
a second immediate pass is a no-op, and at any other hour a pass changes
nothing at all. -/
theorem daily_reset_pass_amended (db : DB) (perms : PermState)
    (member permFails : Nat → Bool)
    (hmem : ∀ u ∈ get_all_users_with_journals db, member u.discord_id = true)
    (hfail : ∀ u ∈ get_all_users_with_journals db,
      permFails u.discord_id = false) :
    (∀ u ∈ get_all_users_with_journals db,
      check_daily_reset 0 true member permFails db perms u.discord_id = none) ∧
    check_daily_reset 0 true member permFails db
        (check_daily_reset 0 true member permFails db perms) =
      check_daily_reset 0 true member permFails db perms ∧
    (∀ h : Nat, h ≠ 0 →
      check_daily_reset h true member permFails db perms = perms) := by
  have hfire : ∀ q : PermState, check_daily_reset 0 true member permFails db q =
      resetPass member permFails (get_all_users_with_journals db) q := by
    intro q
    unfold check_daily_reset
    rw [if_pos rfl, if_pos rfl]
  refine ⟨?_, ?_, ?_⟩
  · intro u hu
    rw [hfire]
    exact resetPass_clears member permFails _ perms hmem hfail u hu
  · rw [hfire, hfire]
    funext x
    by_cases hx : ∃ u ∈ get_all_users_with_journals db, u.discord_id = x
    · obtain ⟨u, hu, hux⟩ := hx
      have hnone : resetPass member permFails
          (get_all_users_with_journals db) perms x = none := by
        rw [← hux]
        exact resetPass_clears member permFails _ perms hmem hfail u hu
      rw [hnone]
      exact resetPass_none_stable member permFails _ _ x hnone
    · push_neg at hx
      rw [resetPass_unlisted member permFails _ _ x hx]
  · intro h hh
    unfold check_daily_reset
    rw [if_neg hh]

/-- Witness for the amended C3: one provisioned user with an allow held from
a true has_access snapshot; the pass revokes it, repeats as a no-op, and an
hour-13 pass changes nothing. -/
theorem daily_reset_pass_amended_witness :
    (∀ u ∈ get_all_users_with_journals
        ⟨[⟨7, "g", some 70⟩], [], [⟨7, 0, 900, true, 4⟩]⟩,
      (fun _ : Nat => true) u.discord_id = true) ∧
    (∀ u ∈ get_all_users_with_journals
        ⟨[⟨7, "g", some 70⟩], [], [⟨7, 0, 900, true, 4⟩]⟩,
      (fun _ : Nat => false) u.discord_id = false) ∧
    ((∀ u ∈ get_all_users_with_journals
        ⟨[⟨7, "g", some 70⟩], [], [⟨7, 0, 900, true, 4⟩]⟩,
      check_daily_reset 0 true (fun _ => true) (fun _ => false)
        ⟨[⟨7, "g", some 70⟩], [], [⟨7, 0, 900, true, 4⟩]⟩
        (fun x => if x = 7 then some true else none) u.discord_id = none) ∧
    check_daily_reset 0 true (fun _ => true) (fun _ => false)
        ⟨[⟨7, "g", some 70⟩], [], [⟨7, 0, 900, true, 4⟩]⟩
        (check_daily_reset 0 true (fun _ => true) (fun _ => false)
          ⟨[⟨7, "g", some 70⟩], [], [⟨7, 0, 900, true, 4⟩]⟩
          (fun x => if x = 7 then some true else none)) =
      check_daily_reset 0 true (fun _ => true) (fun _ => false)
        ⟨[⟨7, "g", some 70⟩], [], [⟨7, 0, 900, true, 4⟩]⟩
        (fun x => if x = 7 then some true else none) ∧
    (∀ h : Nat, h ≠ 0 →
      check_daily_reset h true (fun _ => true) (fun _ => false)
        ⟨[⟨7, "g", some 70⟩], [], [⟨7, 0, 900, true, 4⟩]⟩
        (fun x => if x = 7 then some true else none) =
        (fun x => if x = 7 then some true else none))) :=
  ⟨by decide, by decide,
    daily_reset_pass_amended
      ⟨[⟨7, "g", some 70⟩], [], [⟨7, 0, 900, true, 4⟩]⟩
      (fun x => if x = 7 then some true else none)
      (fun _ => true) (fun _ => false) (by decide) (by decide)⟩

theorem raceInv_init (n : Nat) : RaceInv (raceInit n) := by
  refine ⟨?_, ?_, ?_, ?_, ?_, ?_, ?_, ?_, ?_⟩
  · intro b hb; cases hb
  · intro c hc; cases hc
  · intro i h; cases h
  · intro i c hc
    rcases hc with h | h | ⟨b, h⟩ <;> cases h
  · intro i c h; cases h
  · intro i c b h; cases h
  · intro i f h; cases h
  · intro h0 i c h; cases h
  · intro c hc; cases hc

theorem raceInv_update {n : Nat} (s : RaceState n) (hs : RaceInv s) (i : Fin n)
    (v : PC) (hclear : v ≠ PC.clear)
    (hheld : ∀ c, holdsPC v c → c < s.next)
    (hcas : s.bound = none → ∀ c, holdsPC v c → c ∈ s.chans)
    (hreread : ∀ c, v = PC.reread c → ∃ b, s.bound = some b)
    (hdel : ∀ c b, v = PC.del c b → s.bound = some b ∧ b ≠ c)
    (hdone : ∀ f, v = PC.done f → ∃ b, s.bound = some b ∧ f = some b)
    (hresp : ∀ c, holdsPC (s.pcs i) c → s.bound ≠ some c → holdsPC v c) :
    RaceInv { s with pcs := Function.update s.pcs i v } := by
  refine ⟨hs.bound_mem, hs.chans_lt, ?_, ?_, ?_, ?_, ?_, ?_, ?_⟩
  · intro j
    show Function.update s.pcs i v j ≠ PC.clear
    by_cases hij : j = i
    · subst hij; rw [Function.update_same]; exact hclear
    · rw [Function.update_noteq hij]; exact hs.no_clear j
  · intro j c hc
    have hc' : holdsPC (Function.update s.pcs i v j) c := hc
    by_cases hij : j = i
    · subst hij; rw [Function.update_same] at hc'; exact hheld c hc'
    · rw [Function.update_noteq hij] at hc'; exact hs.held_lt j c hc'
  · intro j c hj
    have hj' : Function.update s.pcs i v j = PC.reread c := hj
    by_cases hij : j = i
    · subst hij; rw [Function.update_same] at hj'; exact hreread c hj'
    · rw [Function.update_noteq hij] at hj'; exact hs.reread_bound j c hj'
  · intro j c b hj
    have hj' : Function.update s.pcs i v j = PC.del c b := hj
    by_cases hij : j = i
    · subst hij; rw [Function.update_same] at hj'; exact hdel c b hj'
    · rw [Function.update_noteq hij] at hj'; exact hs.del_bound j c b hj'
  · intro j f hj
    have hj' : Function.update s.pcs i v j = PC.done f := hj
    by_cases hij : j = i
    · subst hij; rw [Function.update_same] at hj'; exact hdone f hj'
    · rw [Function.update_noteq hij] at hj'; exact hs.done_bound j f hj'
  · intro h0 j c hj
    have hj' : Function.update s.pcs i v j = PC.cas c := hj
    by_cases hij : j = i
    · subst hij; rw [Function.update_same] at hj'
      exact hcas h0 c (Or.inl hj')
    · rw [Function.update_noteq hij] at hj'; exact hs.cas_mem h0 j c hj'
  · intro c hc hbc
    obtain ⟨j, hj⟩ := hs.responsible c hc hbc
    by_cases hij : j = i
    · subst hij
      refine ⟨j, ?_⟩
      show holdsPC (Function.update s.pcs j v j) c
      rw [Function.update_same]
      exact hresp c hj hbc
    · refine ⟨j, ?_⟩
      show holdsPC (Function.update s.pcs i v j) c
      rw [Function.update_noteq hij]
      exact hj

theorem raceInv_step {n : Nat} (s s' : RaceState n) (hs : RaceInv s)
    (st : RaceStep s s') : RaceInv s' := by
  cases st with
  | startDone i c hpc hb hc =>
    apply raceInv_update s hs i _ (by simp)
    · intro c' h; exact absurd h (by simp [holdsPC])
    · intro h0 c' h; exact absurd h (by simp [holdsPC])
    · intro c' h; simp at h
    · intro c' b h; simp at h
    · intro f h
      injection h with h1
      exact ⟨c, hb, h1.symm⟩
    · intro c' hold hbc
      rw [hpc] at hold
      exact absurd hold (by simp [holdsPC])
  | startStale i c hpc hb hc =>
    exact absurd (hs.bound_mem c hb) hc
  | startNull i hpc hb =>
    apply raceInv_update s hs i _ (by simp)
    · intro c' h; exact absurd h (by simp [holdsPC])
    · intro h0 c' h; exact absurd h (by simp [holdsPC])
    · intro c' h; simp at h
    · intro c' b h; simp at h
    · intro f h; simp at h
    · intro c' hold hbc
      rw [hpc] at hold
      exact absurd hold (by simp [holdsPC])
  | clearStep i hpc =>
    exact absurd hpc (hs.no_clear i)
  | chkAdopt i c hpc hc =>
    apply raceInv_update s hs i _ (by simp)
    · intro c' h
      simp only [holdsPC] at h
      rcases h with h | h | ⟨b, h⟩ <;> cases h
      exact hs.chans_lt c hc
    · intro h0 c' h
      simp only [holdsPC] at h
      rcases h with h | h | ⟨b, h⟩ <;> cases h
      exact hc
    · intro c' h; simp at h
    · intro c' b h; simp at h
    · intro f h; simp at h
    · intro c' hold hbc
      rw [hpc] at hold
      exact absurd hold (by simp [holdsPC])
  | chkEmpty i hpc hch =>
    apply raceInv_update s hs i _ (by simp)
    · intro c' h; exact absurd h (by simp [holdsPC])
    · intro h0 c' h; exact absurd h (by simp [holdsPC])
    · intro c' h; simp at h
    · intro c' b h; simp at h
    · intro f h; simp at h
    · intro c' hold hbc
      rw [hpc] at hold
      exact absurd hold (by simp [holdsPC])
  | mkStep i hpc =>
    refine ⟨?_, ?_, ?_, ?_, ?_, ?_, ?_, ?_, ?_⟩
    · intro b hb
      exact Finset.mem_insert_of_mem (hs.bound_mem b hb)
    · intro c hc
      show c < s.next + 1
      rcases Finset.mem_insert.mp hc with h | h
      · omega
      · exact Nat.lt_succ_of_lt (hs.chans_lt c h)
    · intro j
      show Function.update s.pcs i (PC.cas s.next) j ≠ PC.clear
      by_cases hij : j = i
      · subst hij; rw [Function.update_same]; simp
      · rw [Function.update_noteq hij]; exact hs.no_clear j
    · intro j c hc
      have hc' : holdsPC (Function.update s.pcs i (PC.cas s.next) j) c := hc
      show c < s.next + 1
      by_cases hij : j = i
      · subst hij
        rw [Function.update_same] at hc'
        simp only [holdsPC] at hc'
        rcases hc' with h | h | ⟨b, h⟩ <;> cases h
        omega
      · rw [Function.update_noteq hij] at hc'
        exact Nat.lt_succ_of_lt (hs.held_lt j c hc')
    · intro j c hj
      have hj' : Function.update s.pcs i (PC.cas s.next) j = PC.reread c := hj
      by_cases hij : j = i
      · subst hij; rw [Function.update_same] at hj'; cases hj'
      · rw [Function.update_noteq hij] at hj'
        exact hs.reread_bound j c hj'
    · intro j c b hj
      have hj' : Function.update s.pcs i (PC.cas s.next) j = PC.del c b := hj
      by_cases hij : j = i
      · subst hij; rw [Function.update_same] at hj'; cases hj'
      · rw [Function.update_noteq hij] at hj'
        exact hs.del_bound j c b hj'
    · intro j f hj
      have hj' : Function.update s.pcs i (PC.cas s.next) j = PC.done f := hj
      by_cases hij : j = i
      · subst hij; rw [Function.update_same] at hj'; cases hj'
      · rw [Function.update_noteq hij] at hj'
        exact hs.done_bound j f hj'
    · intro h0 j c hj
      have hj' : Function.update s.pcs i (PC.cas s.next) j = PC.cas c := hj
      by_cases hij : j = i
      · subst hij
        rw [Function.update_same] at hj'
        injection hj' with h1
        rw [← h1]
        exact Finset.mem_insert_self s.next s.chans
      · rw [Function.update_noteq hij] at hj'
        exact Finset.mem_insert_of_mem (hs.cas_mem h0 j c hj')
    · intro c hc hbc
      rcases Finset.mem_insert.mp hc with h | h
      · subst h
        refine ⟨i, ?_⟩
        show holdsPC (Function.update s.pcs i (PC.cas s.next) i) s.next
        rw [Function.update_same]
        exact Or.inl rfl
      · obtain ⟨j, hj⟩ := hs.responsible c h hbc
        have hij : j ≠ i := by
          intro he
          subst he
          rw [show holds s j c = holdsPC (s.pcs j) c from rfl, hpc] at hj
          exact absurd hj (by simp [holdsPC])
        refine ⟨j, ?_⟩
        show holdsPC (Function.update s.pcs i (PC.cas s.next) j) c
        rw [Function.update_noteq hij]
        exact hj
  | casWin i h hpc hb =>
    refine ⟨?_, hs.chans_lt, ?_, ?_, ?_, ?_, ?_, ?_, ?_⟩
    · intro b hb'
      have hb'' : some h = some b := hb'
      injection hb'' with h1
      rw [← h1]
      exact hs.cas_mem hb i h hpc
    · intro j
      show Function.update s.pcs i (PC.done (some h)) j ≠ PC.clear
      by_cases hij : j = i
      · subst hij; rw [Function.update_same]; simp
      · rw [Function.update_noteq hij]; exact hs.no_clear j
    · intro j c hc
      have hc' : holdsPC (Function.update s.pcs i (PC.done (some h)) j) c := hc
      by_cases hij : j = i
      · subst hij
        rw [Function.update_same] at hc'
        exact absurd hc' (by simp [holdsPC])
      · rw [Function.update_noteq hij] at hc'
        exact hs.held_lt j c hc'
    · intro j c hj
      exact ⟨h, rfl⟩
    · intro j c b hj
      have hj' : Function.update s.pcs i (PC.done (some h)) j = PC.del c b := hj
      by_cases hij : j = i
      · subst hij; rw [Function.update_same] at hj'; cases hj'
      · rw [Function.update_noteq hij] at hj'
        obtain ⟨hbb, -⟩ := hs.del_bound j c b hj'
        rw [hb] at hbb
        cases hbb
    · intro j f hj
      have hj' : Function.update s.pcs i (PC.done (some h)) j = PC.done f := hj
      by_cases hij : j = i
      · subst hij
        rw [Function.update_same] at hj'
        injection hj' with h1
        exact ⟨h, rfl, h1.symm⟩
      · rw [Function.update_noteq hij] at hj'
        obtain ⟨b, hbb, -⟩ := hs.done_bound j f hj'
        rw [hb] at hbb
        cases hbb
    · intro h0
      have h0' : some h = none := h0
      cases h0'
    · intro c hc hbc
      have hbc' : some h ≠ some c := hbc
      have hhc : h ≠ c := fun he => hbc' (by rw [he])
      have hbcold : s.bound ≠ some c := by rw [hb]; simp
      obtain ⟨j, hj⟩ := hs.responsible c hc hbcold
      have hij : j ≠ i := by
        intro he
        subst he
        rw [show holds s j c = holdsPC (s.pcs j) c from rfl, hpc] at hj
        simp only [holdsPC] at hj
        rcases hj with h1 | h1 | ⟨b, h1⟩ <;> cases h1
        exact hhc rfl
      refine ⟨j, ?_⟩
      show holdsPC (Function.update s.pcs i (PC.done (some h)) j) c
      rw [Function.update_noteq hij]
      exact hj
  | casLose i h b hpc hb =>
    apply raceInv_update s hs i _ (by simp)
    · intro c' hh
      simp only [holdsPC] at hh
      rcases hh with h1 | h1 | ⟨b', h1⟩ <;> cases h1
      exact hs.held_lt i h (Or.inl hpc)
    · intro h0
      rw [hb] at h0
      cases h0
    · intro c' hh
      exact ⟨b, hb⟩
    · intro c' b' hh; simp at hh
    · intro f hh; simp at hh
    · intro c' hold hbc
      rw [hpc] at hold
      simp only [holdsPC] at hold
      rcases hold with h1 | h1 | ⟨b', h1⟩ <;> cases h1
      exact Or.inr (Or.inl rfl)
  | rereadKeep i h hpc hb =>
    apply raceInv_update s hs i _ (by simp)
    · intro c' hh; exact absurd hh (by simp [holdsPC])
    · intro h0
      rw [hb] at h0
      cases h0
    · intro c' hh; simp at hh
    · intro c' b' hh; simp at hh
    · intro f hh
      injection hh with h1
      exact ⟨h, hb, h1.symm⟩
    · intro c' hold hbc
      rw [hpc] at hold
      simp only [holdsPC] at hold
      rcases hold with h1 | h1 | ⟨b', h1⟩ <;> cases h1
      exact absurd hb hbc
  | rereadAdopt i h b hpc hb hbc hbh =>
    apply raceInv_update s hs i _ (by simp)
    · intro c' hh
      simp only [holdsPC] at hh
      rcases hh with h1 | h1 | ⟨b', h1⟩ <;> cases h1
      exact hs.held_lt i h (Or.inr (Or.inl hpc))
    · intro h0
      rw [hb] at h0
      cases h0
    · intro c' hh; simp at hh
    · intro c' b' hh
      cases hh
      exact ⟨hb, hbh⟩
    · intro f hh; simp at hh
    · intro c' hold hbc'
      rw [hpc] at hold
      simp only [holdsPC] at hold
      rcases hold with h1 | h1 | ⟨b', h1⟩ <;> cases h1
      exact Or.inr (Or.inr ⟨b, rfl⟩)
  | rereadMissing i h b hpc hb hnc =>
    exact absurd (hs.bound_mem b hb) hnc
  | rereadNull i h hpc hb =>
    obtain ⟨b, hbb⟩ := hs.reread_bound i h hpc
    rw [hb] at hbb
    cases hbb
  | delStep i h b hpc =>
    obtain ⟨hb, hbh⟩ := hs.del_bound i h b hpc
    refine ⟨?_, ?_, ?_, ?_, ?_, ?_, ?_, ?_, ?_⟩
    · intro b' hb'
      have hb'' : s.bound = some b' := hb'
      rw [hb] at hb''
      injection hb'' with h1
      rw [← h1]
      exact Finset.mem_erase.mpr ⟨hbh, hs.bound_mem b hb⟩
    · intro c hc
      exact hs.chans_lt c (Finset.mem_of_mem_erase hc)
    · intro j
      show Function.update s.pcs i (PC.done (some b)) j ≠ PC.clear
      by_cases hij : j = i
      · subst hij; rw [Function.update_same]; simp
      · rw [Function.update_noteq hij]; exact hs.no_clear j
    · intro j c hc
      have hc' : holdsPC (Function.update s.pcs i (PC.done (some b)) j) c := hc
      by_cases hij : j = i
      · subst hij
        rw [Function.update_same] at hc'
        exact absurd hc' (by simp [holdsPC])
      · rw [Function.update_noteq hij] at hc'
        exact hs.held_lt j c hc'
    · intro j c hj
      exact ⟨b, hb⟩
    · intro j c b' hj
      have hj' : Function.update s.pcs i (PC.done (some b)) j = PC.del c b' := hj
      by_cases hij : j = i
      · subst hij; rw [Function.update_same] at hj'; cases hj'
      · rw [Function.update_noteq hij] at hj'
        exact hs.del_bound j c b' hj'
    · intro j f hj
      have hj' : Function.update s.pcs i (PC.done (some b)) j = PC.done f := hj
      by_cases hij : j = i
      · subst hij
        rw [Function.update_same] at hj'
        injection hj' with h1
        exact ⟨b, hb, h1.symm⟩
      · rw [Function.update_noteq hij] at hj'
        exact hs.done_bound j f hj'
    · intro h0
      have h0' : s.bound = none := h0
      rw [hb] at h0'
      cases h0'
    · intro c hc hbc
      have hch : c ≠ h := (Finset.mem_erase.mp hc).1
      have hcm : c ∈ s.chans := (Finset.mem_erase.mp hc).2
      obtain ⟨j, hj⟩ := hs.responsible c hcm hbc
      have hij : j ≠ i := by
        intro he
        subst he
        rw [show holds s j c = holdsPC (s.pcs j) c from rfl, hpc] at hj
        simp only [holdsPC] at hj
        rcases hj with h1 | h1 | ⟨b', h1⟩ <;> cases h1
        exact hch rfl
      refine ⟨j, ?_⟩
      show holdsPC (Function.update s.pcs i (PC.done (some b)) j) c
      rw [Function.update_noteq hij]
      exact hj

theorem raceInv_reachable {n : Nat} (s : RaceState n)
    (h : RaceReachable n s) : RaceInv s := by
  induction h with
  | refl => exact raceInv_init n
  | tail hab hbc ih => exact raceInv_step _ _ ih hbc

/-- Claim C2: from a fresh start, no matter how many concurrent handle_dm
invocations race for the same user and however their awaited steps
interleave, when all of them have finished exactly one channel is durably
bound as journal_channel_id, exactly one external channel survives (that
same one — every losing invocation deleted the channel it had and adopted
the winner's), and every invocation ended up announcing the winning
channel. -/
theorem provisioning_race_safe (n : Nat) (hn : 0 < n) (s : RaceState n)
    (hr : RaceReachable n s) (hdone : ∀ i, ∃ f, s.pcs i = PC.done f) :
    ∃ c, s.bound = some c ∧ s.chans = {c} ∧
      ∀ i f, s.pcs i = PC.done f → f = some c := by
  have inv := raceInv_reachable s hr
  obtain ⟨f0, h0⟩ := hdone ⟨0, hn⟩
  obtain ⟨b, hb, -⟩ := inv.done_bound ⟨0, hn⟩ f0 h0
  refine ⟨b, hb, ?_, ?_⟩
  · apply Finset.ext
    intro c
    constructor
    · intro hc
      by_cases hbc : s.bound = some c
      · rw [hb] at hbc
        injection hbc with h1
        rw [h1]
        exact Finset.mem_singleton_self c
      · obtain ⟨i, hi⟩ := inv.responsible c hc hbc
        obtain ⟨fi, hfi⟩ := hdone i
        rw [show holds s i c = holdsPC (s.pcs i) c from rfl, hfi] at hi
        exact absurd hi (by simp [holdsPC])
    · intro hc
      rw [Finset.mem_singleton.mp hc]
      exact inv.bound_mem b hb
  · intro i f hf
    obtain ⟨b', hb', hfb⟩ := inv.done_bound i f hf
    rw [hb] at hb'
    injection hb' with h1
    rw [hfb, h1]

/-- Witness for C2: one invocation runs start, name lookup (empty), channel
creation and the conditional write; in the final state channel 0 is bound,
it is the only survivor, and it is what the invocation announced. -/
theorem provisioning_race_safe_witness :
    ∃ c, wState4.bound = some c ∧ wState4.chans = {c} ∧
      ∀ i f, wState4.pcs i = PC.done f → f = some c := by
  apply provisioning_race_safe 1 (by decide) wState4
  · have r1 : RaceReachable 1 wState1 :=
      Relation.ReflTransGen.single (RaceStep.startNull (raceInit 1) 0 rfl rfl)
    have r2 : RaceReachable 1 wState2 :=
      Relation.ReflTransGen.tail r1 (RaceStep.chkEmpty wState1 0 rfl rfl)
    have r3 : RaceReachable 1 wState3 :=
      Relation.ReflTransGen.tail r2 (RaceStep.mkStep wState2 0 rfl)
    exact Relation.ReflTransGen.tail r3 (RaceStep.casWin wState3 0 0 rfl rfl)
  · intro i
    exact ⟨some 0, by rw [Fin.eq_zero i]; rfl⟩

end OurGame
